import Mathlib

/-!
Verification of the doc_scan repository's bounding-box rescale / render /
export pipeline (src/main.py, src/layout.py) against its specification.

Coordinates are modelled as rationals (`ℚ`): the Python code computes with
floats, but every claim at issue is about exact structure (aliasing, field
names, ordering, loop termination) or about an algebraic round-trip that the
spec states "within floating-point tolerance"; exact rational arithmetic is
the idealised semantics of those float expressions.

A Python bounding box is a four-element list `[x1, y1, x2, y2]`; we embed it
as a structure whose fields, in order, are the list slots 0..3.
-/

/-- A bounding box `[x1, y1, x2, y2]` (Python `list` slots 0,1,2,3). -/
structure Box where
  x1 : ℚ
  y1 : ℚ
  x2 : ℚ
  y2 : ℚ
deriving DecidableEq, Repr

/-- The box as the Python list `[x1, y1, x2, y2]` (used when the box value is
serialised to JSON). -/
def Box.toList (b : Box) : List ℚ := [b.x1, b.y1, b.x2, b.y2]

/-- One page image: PIL `Image` with `width`, `height` and an abstract pixel
buffer identifier. -/
structure PageImage where
  width : ℚ
  height : ℚ
  pixels : ℕ
deriving DecidableEq, Repr

/-- Body of the loop in `rescaleBBoxes` (src/main.py lines 82-84): both
assignments read the original slot values before writing, so each box is a
pure function of its old value and the two scale factors. -/
def rescaleBox (wScale hScale : ℚ) (b : Box) : Box :=
  { x1 := b.x1 * wScale
    y1 := b.y1 * hScale
    x2 := b.x2 * wScale
    y2 := b.y2 * hScale }

/-- Result of `rescaleBBoxes` (src/main.py lines 73-85). Python mutates each
inner box list in place and then returns the very same outer list object, so
the returned sequence and the caller's sequence after the call are one and
the same; we record both as fields so that frame claims about the caller's
sequence can be stated. -/
structure RescaleResult where
  returned : List Box
  callerBoxesAfter : List Box
deriving DecidableEq, Repr

/-- Embedding of `rescaleBBoxes(img, bboxes)` from src/main.py lines 73-85:
`w_scale, h_scale = img.width / 1000, img.height / 1000`, then every box is
rescaled in place and the same list is returned. -/
def rescaleBBoxes (width height : ℚ) (bboxes : List Box) : RescaleResult :=
  let wScale := width / 1000
  let hScale := height / 1000
  let rescaled := bboxes.map (rescaleBox wScale hScale)
  { returned := rescaled, callerBoxesAfter := rescaled }

/-- Result of `show_boxes` from src/layout.py lines 31-55: the function takes
`bounding_boxes`, selects `b_boxes = bounding_boxes[0]`, rescales those boxes
in place (using the module-global `image`'s dimensions, here the `imageW`,
`imageH` parameters), draws them and returns `(img, b_boxes)`.  The caller's
`bounding_boxes` afterwards has its head entry holding the rescaled values
(the inner lists were mutated in place). -/
structure ShowBoxesResult where
  returnedBoxes : List Box
  callerBoundingBoxesAfter : List (List Box)
deriving DecidableEq, Repr

/-- Embedding of `show_boxes(img, bounding_boxes)` from src/layout.py lines 31-55,
restricted to its effect on box data (the drawing itself only touches the
image buffer).  `bounding_boxes[0]` on an empty list raises `IndexError`,
modelled as `none`. -/
def show_boxes (imageW imageH : ℚ) (bounding_boxes : List (List Box)) :
    Option ShowBoxesResult :=
  match bounding_boxes with
  | [] => none
  | bs :: rest =>
      let scaled := bs.map (rescaleBox (imageW / 1000) (imageH / 1000))
      some { returnedBoxes := scaled, callerBoundingBoxesAfter := scaled :: rest }

/-- The spec's re-normalization formula (§8): each pixel coordinate is mapped
back by `x / W * 1000` (resp. `y / H * 1000`).  A zero page dimension makes
the Python expression raise `ZeroDivisionError`, modelled as `none`. -/
def renormalizeBoxes (width height : ℚ) (boxes : List Box) : Option (List Box) :=
  if width = 0 ∨ height = 0 then none
  else some (boxes.map fun b =>
    { x1 := b.x1 / width * 1000
      y1 := b.y1 / height * 1000
      x2 := b.x2 / width * 1000
      y2 := b.y2 / height * 1000 })

/-- C1: as stated, the claim demands that after `rescaleBBoxes` the caller's
original box sequence still holds the original normalized coordinates.  The
code mutates the caller's boxes in place: on the page 2000×500 with the
single box `[1, 2, 3, 4]`, the caller's sequence afterwards holds
`[2, 1, 6, 2]`, not the original. -/
theorem rescaleBBoxes_not_frame_preserving :
    (rescaleBBoxes 2000 500 [⟨1, 2, 3, 4⟩]).callerBoxesAfter ≠ [⟨1, 2, 3, 4⟩] := by
  simp only [rescaleBBoxes, rescaleBox, List.map_cons, List.map_nil, ne_eq,
    List.cons.injEq, Box.mk.injEq, and_true]
  norm_num

/-- C1 (amended): `rescaleBBoxes` rescales in place — the caller's sequence
after the call is the same (now pixel-coordinate) sequence that is returned,
namely the per-box rescale by `width/1000` and `height/1000`; likewise
`show_boxes` leaves the caller's `bounding_boxes` with its head entry
rescaled in place. -/
theorem rescaleBBoxes_mutates_in_place (width height : ℚ) (bboxes : List Box)
    (bs : List Box) (rest : List (List Box)) :
    (rescaleBBoxes width height bboxes).callerBoxesAfter
        = (rescaleBBoxes width height bboxes).returned
      ∧ (rescaleBBoxes width height bboxes).returned
        = bboxes.map (rescaleBox (width / 1000) (height / 1000))
      ∧ show_boxes width height (bs :: rest)
        = some { returnedBoxes := bs.map (rescaleBox (width / 1000) (height / 1000))
                 callerBoundingBoxesAfter :=
                   bs.map (rescaleBox (width / 1000) (height / 1000)) :: rest } := by
  refine ⟨rfl, rfl, rfl⟩

/-- C4: as stated the claim quantifies over every page dimension pair,
including zero.  With `W = H = 0` the rescale sends the box `[500,500,600,600]`
to all zeros and the re-normalization `x / W * 1000` divides by zero, so the
original box is not recovered. -/
theorem rescale_roundtrip_fails_at_zero :
    renormalizeBoxes 0 0 ((rescaleBBoxes 0 0 [⟨500, 500, 600, 600⟩]).returned)
      ≠ some [⟨500, 500, 600, 600⟩] := by
  simp [renormalizeBoxes]

/-- C4 (amended): for nonzero page dimensions, rescaling then re-normalizing
by `x / W * 1000` (resp. `y / H * 1000`) recovers the original boxes exactly
(in exact arithmetic, hence within any floating-point tolerance). -/
theorem rescale_renormalize_roundtrip (width height : ℚ) (bboxes : List Box)
    (hw : width ≠ 0) (hh : height ≠ 0) :
    renormalizeBoxes width height ((rescaleBBoxes width height bboxes).returned)
      = some bboxes := by
  have hno : ¬ (width = 0 ∨ height = 0) := by push_neg; exact ⟨hw, hh⟩
  unfold renormalizeBoxes rescaleBBoxes
  simp only [if_neg hno, Option.some.injEq, List.map_map]
  induction bboxes with
  | nil => rfl
  | cons b bs ih =>
      simp only [List.map_cons, List.cons.injEq]
      refine ⟨?_, ih⟩
      cases b with
      | mk a1 a2 a3 a4 =>
          simp only [Function.comp_apply, rescaleBox, Box.mk.injEq]
          refine ⟨?_, ?_, ?_, ?_⟩ <;> (field_simp; ring)

theorem rescale_renormalize_roundtrip_witness :
    (2000 : ℚ) ≠ 0 ∧ (500 : ℚ) ≠ 0 ∧
      renormalizeBoxes 2000 500 ((rescaleBBoxes 2000 500 [⟨1, 2, 3, 4⟩]).returned)
        = some [⟨1, 2, 3, 4⟩] :=
  ⟨by norm_num, by norm_num,
    rescale_renormalize_roundtrip 2000 500 [⟨1, 2, 3, 4⟩] (by norm_num) (by norm_num)⟩

/-!
## The font-sizing loop of `displayText` (src/main.py lines 114-127)

For a fixed word, `len s` models `ImageFont.truetype("Roboto-Regular.ttf",
s).getlength(word)`: the rendered width of the word at font size `s`.  The
loop

    fontsize = 1
    while font.getlength(word) < box_length:
        fontsize += 1
        font = ImageFont.truetype("Roboto-Regular.ttf", fontsize)

has no bound other than its condition, so it may diverge; we model it with
explicit fuel: `none` means the loop has not terminated within `fuel`
iterations (and, when that holds for every fuel, the Python loop diverges).
-/

/-- The `while font.getlength(word) < box_length` loop of `displayText`,
fuel-indexed: from current size `fontsize`, keep incrementing while the
rendered width is strictly below `boxLength`; return the first size whose
width meets or exceeds `boxLength`. -/
def fontLoop (len : ℕ → ℚ) (boxLength : ℚ) : ℕ → ℕ → Option ℕ
  | 0, _ => none
  | fuel + 1, fontsize =>
      if len fontsize < boxLength then fontLoop len boxLength fuel (fontsize + 1)
      else some fontsize

/-- The font size `displayText` actually draws with: the loop's final
`fontsize` minus one (src/main.py line 123, `truetype(..., fontsize - 1)`).
The loop starts at size 1. -/
def displayTextFontSize (len : ℕ → ℚ) (boxLength : ℚ) (fuel : ℕ) : Option ℕ :=
  (fontLoop len boxLength fuel 1).map (fun f => f - 1)

/-- One `draw.text((box[0], box[1]), word, (0,0,0), font)` command issued by
`displayText`: position, word, and the chosen font size. -/
structure DrawCmd where
  posX : ℚ
  posY : ℚ
  word : String
  size : ℕ
deriving DecidableEq, Repr

/-- The body of `displayText`'s `for box, word in zip(bboxes, words)` loop for
one pair: size the font for this word against this box's width
`box[2] - box[0]`, then draw at the box's top-left corner.  `lenW w s` is the
rendered width of word `w` at size `s`; `none` when the sizing loop does not
finish within `fuel`. -/
def wordDraw (lenW : String → ℕ → ℚ) (fuel : ℕ) (b : Box) (w : String) :
    Option DrawCmd :=
  (fontLoop (lenW w) (b.x2 - b.x1) fuel 1).map
    (fun f => { posX := b.x1, posY := b.y1, word := w, size := f - 1 })

/-- The sequence of text-draw commands of `displayText` (src/main.py lines
116-124): Python's `zip` pairs boxes and words positionally and stops at the
shorter sequence. -/
def displayTextDraws (lenW : String → ℕ → ℚ) (fuel : ℕ)
    (bboxes : List Box) (words : List String) : List (Option DrawCmd) :=
  (bboxes.zip words).map (fun bw => wordDraw lenW fuel bw.1 bw.2)

/-- The image produced by `displayText` (src/main.py lines 102-127): a white
canvas of the page's dimensions, the per-word draw commands, and — when
`show_bboxes` — the outline rectangle drawn inside the same zip loop for each
paired box. -/
structure TextImage where
  width : ℚ
  height : ℚ
  draws : List (Option DrawCmd)
  boxOutlines : List Box
deriving DecidableEq, Repr

/-- Embedding of `displayText(raw_img_dims, bboxes, words, show_bboxes)` from src/main.py
lines 102-127. -/
def displayText (lenW : String → ℕ → ℚ) (fuel : ℕ) (dims : ℚ × ℚ)
    (bboxes : List Box) (words : List String) (show_bboxes : Bool) : TextImage :=
  { width := dims.1
    height := dims.2
    draws := displayTextDraws lenW fuel bboxes words
    boxOutlines := if show_bboxes then (bboxes.zip words).map Prod.fst else [] }

/-- If the loop returns `some n` from start `fs`, then `fs ≤ n`, the width at
`n` meets or exceeds the box length, and every size in `[fs, n)` is strictly
below it. -/
theorem fontLoop_some_spec (len : ℕ → ℚ) (boxLength : ℚ) :
    ∀ (fuel fs n : ℕ), fontLoop len boxLength fuel fs = some n →
      fs ≤ n ∧ boxLength ≤ len n ∧ ∀ s, fs ≤ s → s < n → len s < boxLength := by
  intro fuel
  induction fuel with
  | zero => intro fs n h; simp [fontLoop] at h
  | succ fuel ih =>
      intro fs n h
      by_cases hc : len fs < boxLength
      · rw [fontLoop, if_pos hc] at h
        obtain ⟨h1, h2, h3⟩ := ih (fs + 1) n h
        refine ⟨by omega, h2, ?_⟩
        intro s hs1 hs2
        rcases Nat.eq_or_lt_of_le hs1 with heq | hlt
        · exact heq ▸ hc
        · exact h3 s hlt hs2
      · rw [fontLoop, if_neg hc] at h
        obtain rfl : fs = n := by simpa using h
        exact ⟨le_refl _, not_lt.mp hc, fun s hs1 hs2 => absurd (lt_of_le_of_lt hs1 hs2) (lt_irrefl _)⟩

/-- Elements of `displayTextDraws` depend only on the positionally paired box
and word: entry `i` is exactly `wordDraw` of `bboxes[i]` and `words[i]`. -/
theorem displayTextDraws_get (lenW : String → ℕ → ℚ) (fuel : ℕ) :
    ∀ (bs : List Box) (ws : List String) (i : ℕ)
      (hb : i < bs.length) (hw : i < ws.length),
      (displayTextDraws lenW fuel bs ws).get? i
        = some (wordDraw lenW fuel (bs.get ⟨i, hb⟩) (ws.get ⟨i, hw⟩)) := by
  intro bs
  induction bs with
  | nil => intro ws i hb hw; simp at hb
  | cons b bs ih =>
      intro ws i hb hw
      cases ws with
      | nil => simp at hw
      | cons w ws =>
          cases i with
          | zero => rfl
          | succ i =>
              have hb' : i < bs.length := by simpa using hb
              have hw' : i < ws.length := by simpa using hw
              simpa [displayTextDraws, List.zip_cons_cons] using ih ws i hb' hw'

/-- Zipping `bs.zip ws` only consults the first `min` elements of either list. -/
theorem zip_eq_zip_take (bs : List Box) :
    ∀ ws : List String,
      bs.zip ws = (bs.take (min bs.length ws.length)).zip
        (ws.take (min bs.length ws.length)) := by
  induction bs with
  | nil => intro ws; simp
  | cons b bs ih =>
      intro ws
      cases ws with
      | nil => simp
      | cons w ws =>
          simp only [List.length_cons, Nat.succ_min_succ, List.take_succ_cons,
            List.zip_cons_cons, List.cons.injEq, true_and]
          exact ih ws

/-- C5: when a box's width `x2 - x1` is zero or negative, the sizing loop's
condition `getlength(word) < box_length` is false at once (rendered widths
are nonnegative), so the loop exits immediately at the starting (minimum)
font size 1 — for any fuel at all, i.e. no unbounded iteration. -/
theorem fontLoop_nonpos_width_terminates (len : ℕ → ℚ) (boxLength : ℚ)
    (hlen : ∀ s, 0 ≤ len s) (hbl : boxLength ≤ 0) (fuel : ℕ) (hf : 1 ≤ fuel) :
    fontLoop len boxLength fuel 1 = some 1 := by
  obtain ⟨fuel', rfl⟩ : ∃ k, fuel = k + 1 := ⟨fuel - 1, by omega⟩
  rw [fontLoop, if_neg (not_lt.mpr (le_trans hbl (hlen 1)))]

theorem fontLoop_nonpos_width_terminates_witness :
    fontLoop (fun _ => (3 : ℚ)) (-2) 1 1 = some 1 :=
  fontLoop_nonpos_width_terminates (fun _ => (3 : ℚ)) (-2)
    (fun _ => by norm_num) (by norm_num) 1 (le_refl 1)

/-- C8: the sizing loop terminates only when the rendered width eventually
meets the box width (any terminating run ends at a size whose width meets or
exceeds it); and for a word whose rendered width is 0 at every size — e.g.
the empty string — paired with a box of positive width, the loop runs out of
any amount of fuel: the Python loop never terminates. -/
theorem fontLoop_empty_word_diverges (len : ℕ → ℚ) (boxLength : ℚ)
    (hlen : ∀ s, len s = 0) (hbl : 0 < boxLength) :
    (∀ fuel fs, fontLoop len boxLength fuel fs = none)
      ∧ ∀ (len2 : ℕ → ℚ) (bl2 : ℚ) (fuel fs n : ℕ),
          fontLoop len2 bl2 fuel fs = some n → bl2 ≤ len2 n := by
  constructor
  · intro fuel
    induction fuel with
    | zero => intro fs; rfl
    | succ fuel ih =>
        intro fs
        rw [fontLoop, if_pos (by rw [hlen]; exact hbl)]
        exact ih (fs + 1)
  · intro len2 bl2 fuel fs n h
    exact (fontLoop_some_spec len2 bl2 fuel fs n h).2.1

theorem fontLoop_empty_word_diverges_witness :
    fontLoop (fun _ => (0 : ℚ)) 5 30 1 = none :=
  (fontLoop_empty_word_diverges (fun _ => (0 : ℚ)) 5 (fun _ => rfl)
    (by norm_num)).1 30 1

/-- C6: as stated, the chosen size is claimed to be the largest whose
rendered width does not exceed (`≤`) the box width.  With rendered width
equal to the font size and a box of width 3, the loop exits at size 3
(width `3 < 3` is false) and draws at size 2 — yet size 3 itself has width
`3 ≤ 3`, so the drawn size is not the largest one fitting under `≤`. -/
theorem displayText_largest_fit_counterexample :
    displayTextFontSize (fun s => (s : ℚ)) 3 10 = some 2
      ∧ (fun s => (s : ℚ)) 3 ≤ 3 ∧ ¬ (3 : ℕ) ≤ 2 := by
  refine ⟨?_, by norm_num, by norm_num⟩
  norm_num [displayTextFontSize, fontLoop]

/-- C6 (amended): `displayText` sizes each word by incrementing from the
minimum size 1 until the rendered width meets or exceeds the box width, then
backs off one step; when rendered width is monotone in font size, the drawn
size `n - 1` is the largest size whose width is *strictly below* the box
width: every size in `[1, n)` fits strictly and every size `≥ n` does not.
Each word's size is independent of every other word's box and text: entry
`i` of the draw sequence is a function of `bboxes[i]` and `words[i]` alone. -/
theorem displayText_font_selection (len : ℕ → ℚ) (boxLength : ℚ)
    (mono : ∀ a b : ℕ, a ≤ b → len a ≤ len b)
    (fuel n : ℕ) (h : fontLoop len boxLength fuel 1 = some n) :
    displayTextFontSize len boxLength fuel = some (n - 1)
      ∧ 1 ≤ n
      ∧ (∀ s, 1 ≤ s → s < n → len s < boxLength)
      ∧ (∀ s, n ≤ s → boxLength ≤ len s)
      ∧ ∀ (lenW : String → ℕ → ℚ) (fl : ℕ) (bs : List Box) (ws : List String)
          (i : ℕ) (hb : i < bs.length) (hw : i < ws.length),
          (displayTextDraws lenW fl bs ws).get? i
            = some (wordDraw lenW fl (bs.get ⟨i, hb⟩) (ws.get ⟨i, hw⟩)) := by
  obtain ⟨h1, h2, h3⟩ := fontLoop_some_spec len boxLength fuel 1 n h
  refine ⟨?_, h1, h3, ?_, displayTextDraws_get⟩
  · rw [displayTextFontSize, h]; rfl
  · intro s hs
    exact le_trans h2 (mono n s hs)

theorem displayText_font_selection_witness :
    displayTextFontSize (fun s => (s : ℚ)) 3 10 = some 2 := by
  have hloop : fontLoop (fun s => (s : ℚ)) 3 10 1 = some 3 := by
    norm_num [fontLoop]
  exact (displayText_font_selection (fun s => (s : ℚ)) 3
    (fun a b hab => by simpa using (Nat.cast_le (α := ℚ)).mpr hab) 10 3 hloop).1

/-- C10: `displayText` pairs boxes and words positionally via `zip`: the draw
sequence has exactly `min (length bboxes) (length words)` entries, surplus
elements of the longer list are silently ignored (the result only depends on
the first `min` elements of each), no error is raised on a length mismatch
(the embedding is a total function), and entry `i` is the draw for the pair
`(bboxes[i], words[i])`. -/
theorem displayText_zip_pairing (lenW : String → ℕ → ℚ) (fuel : ℕ)
    (bboxes : List Box) (words : List String) :
    (displayTextDraws lenW fuel bboxes words).length
        = min bboxes.length words.length
      ∧ displayTextDraws lenW fuel bboxes words
          = displayTextDraws lenW fuel
              (bboxes.take (min bboxes.length words.length))
              (words.take (min bboxes.length words.length))
      ∧ ∀ (i : ℕ) (hb : i < bboxes.length) (hw : i < words.length),
          (displayTextDraws lenW fuel bboxes words).get? i
            = some (wordDraw lenW fuel (bboxes.get ⟨i, hb⟩) (words.get ⟨i, hw⟩)) := by
  refine ⟨?_, ?_, displayTextDraws_get lenW fuel bboxes words⟩
  · simp [displayTextDraws, List.length_zip]
  · unfold displayTextDraws
    rw [← zip_eq_zip_take]

theorem displayText_zip_pairing_witness :
    (displayTextDraws (fun _ _ => (0 : ℚ)) 1 [⟨0, 0, 0, 0⟩, ⟨0, 0, 0, 0⟩]
      ["a", "b", "c"]).length = min 2 3 :=
  (displayText_zip_pairing (fun _ _ => (0 : ℚ)) 1 [⟨0, 0, 0, 0⟩, ⟨0, 0, 0, 0⟩]
    ["a", "b", "c"]).1

/-!
## JSON export (src/main.py lines 130-140, src/layout.py lines 81-95)

The exported document is an array of flat objects whose values are an
integer, a string, or the four-number box array; we embed exactly that shape.
`json.dump(result, f, indent=k)` is modelled as the pair of the serialised
value and the `indent` argument (the rendered text is a function of those
two, with Python dicts keeping insertion order of their fields).
-/

/-- A JSON value as produced by these exporters: a number, a string, or the
box's four-number array. -/
inductive JVal where
  | num (q : ℚ)
  | str (s : String)
  | numArr (qs : List ℚ)
deriving DecidableEq, Repr

/-- A JSON object: fields in insertion order. -/
abbrev JObj := List (String × JVal)

/-- The `for i, box in enumerate(bboxes)` loop of `exportJson` starting at
index `i`: each iteration appends `{"key": i, "text": words[i], "bbox": box}`.
`words[i]` out of range raises `IndexError`, modelled as `none`. -/
def exportJsonLoop (words : List String) : ℕ → List Box → Option (List JObj)
  | _, [] => some []
  | i, b :: rest =>
      match words.get? i with
      | none => none
      | some w =>
          (exportJsonLoop words (i + 1) rest).map
            (fun tail => [("key", JVal.num i), ("text", JVal.str w),
              ("bbox", JVal.numArr b.toList)] :: tail)

/-- The `result` list built by `exportJson` (src/main.py lines 131-137). -/
def exportJsonRecords (words : List String) (bboxes : List Box) :
    Option (List JObj) :=
  exportJsonLoop words 0 bboxes

/-- The document `exportJson` passes to `json.dump(..., indent=4)`
(src/main.py lines 139-140): the record array plus the fixed indent 4. -/
def exportJsonOutput (words : List String) (bboxes : List Box) :
    Option (List JObj × ℕ) :=
  (exportJsonRecords words bboxes).map (fun recs => (recs, 4))

/-- The `result` list built by `export_json` in src/layout.py lines 83-89:
identical to `exportJson`'s except the box field is named `"bounding_box"`. -/
def export_jsonLoop (words : List String) : ℕ → List Box → Option (List JObj)
  | _, [] => some []
  | i, b :: rest =>
      match words.get? i with
      | none => none
      | some w =>
          (export_jsonLoop words (i + 1) rest).map
            (fun tail => [("key", JVal.num i), ("text", JVal.str w),
              ("bounding_box", JVal.numArr b.toList)] :: tail)

/-- The document `export_json` (src/layout.py lines 81-92) passes to
`json.dump(..., indent=6)`: the record array plus the indent 6. -/
def export_jsonOutput (words : List String) (bboxes : List Box) :
    Option (List JObj × ℕ) :=
  (export_jsonLoop words 0 bboxes).map (fun recs => (recs, 6))

/-- Index/length behaviour of the export loop: from start index `i` it
succeeds exactly when the box list is empty or `words` extends to index
`i + length bboxes`. -/
theorem exportJsonLoop_isSome (words : List String) :
    ∀ (bboxes : List Box) (i : ℕ),
      (exportJsonLoop words i bboxes).isSome = true
        ↔ (bboxes = [] ∨ i + bboxes.length ≤ words.length) := by
  intro bboxes
  induction bboxes with
  | nil => intro i; simp [exportJsonLoop]
  | cons b rest ih =>
      intro i
      rw [exportJsonLoop]
      cases hw : words.get? i with
      | none =>
          have hlen : words.length ≤ i := by
            simpa using List.get?_eq_none.mp hw
          simp only [Option.isSome_none, List.length_cons]
          constructor
          · intro hfalse; cases hfalse
          · rintro (h | h)
            · cases h
            · omega
      | some w =>
          have hi : i < words.length := (List.get?_eq_some.mp hw).1
          cases hrec : exportJsonLoop words (i + 1) rest with
          | none =>
              have hnone : ¬ (rest = [] ∨ i + 1 + rest.length ≤ words.length) := by
                intro hc
                have := (ih (i + 1)).mpr hc
                rw [hrec] at this
                cases this
              simp only [Option.map_none, Option.isSome_none, List.length_cons]
              constructor
              · intro hfalse; cases hfalse
              · rintro (h | h)
                · cases h
                · exact absurd (Or.inr (by omega)) hnone
          | some tail =>
              have hsome : rest = [] ∨ i + 1 + rest.length ≤ words.length :=
                (ih (i + 1)).mp (by rw [hrec]; rfl)
              constructor
              · intro _
                rcases hsome with rfl | h
                · exact Or.inr (by simpa using hi)
                · exact Or.inr (by simp only [List.length_cons]; omega)
              · intro _; rfl

/-- Shape of a successful export loop run: one record per box; the record at
offset `j` carries key `i + j`, the word at index `i + j`, and the box at
offset `j`, with exactly the fields key/text/bbox in that order. -/
theorem exportJsonLoop_get (words : List String) :
    ∀ (bboxes : List Box) (i : ℕ) (recs : List JObj),
      exportJsonLoop words i bboxes = some recs →
      recs.length = bboxes.length
        ∧ ∀ (j : ℕ) (w : String) (b : Box), words.get? (i + j) = some w →
            bboxes.get? j = some b →
            recs.get? j = some [("key", JVal.num ((i + j : ℕ) : ℚ)),
              ("text", JVal.str w), ("bbox", JVal.numArr b.toList)] := by
  intro bboxes
  induction bboxes with
  | nil =>
      intro i recs h
      obtain rfl : recs = [] := by simpa [exportJsonLoop] using h.symm
      exact ⟨rfl, fun j w b _ hb => by simp at hb⟩
  | cons b rest ih =>
      intro i recs h
      rw [exportJsonLoop] at h
      cases hw : words.get? i with
      | none => rw [hw] at h; cases h
      | some w0 =>
          rw [hw] at h
          cases htail : exportJsonLoop words (i + 1) rest with
          | none => rw [htail] at h; cases h
          | some tail =>
              rw [htail] at h
              obtain rfl : recs
                  = [("key", JVal.num ((i : ℕ) : ℚ)), ("text", JVal.str w0),
                      ("bbox", JVal.numArr b.toList)] :: tail := by
                simpa using h.symm
              obtain ⟨hlen, hget⟩ := ih (i + 1) tail htail
              refine ⟨by simpa using hlen, ?_⟩
              intro j w b' hwj hbj
              cases j with
              | zero =>
                  simp only [Nat.add_zero] at hwj
                  rw [hw] at hwj
                  obtain rfl : w0 = w := by simpa using hwj
                  obtain rfl : b = b' := by simpa using hbj
                  simp
              | succ j =>
                  have heq : i + 1 + j = i + (j + 1) := by omega
                  have hwj' : words.get? (i + 1 + j) = some w := by
                    rw [heq]; exact hwj
                  have hbj' : rest.get? j = some b' := by simpa using hbj
                  have hres := hget j w b' hwj' hbj'
                  rw [heq] at hres
                  simpa using hres

/-- C3: as stated the claim covers both exporters and fixes the box field
name `"bbox"`.  `export_json` in src/layout.py names that field
`"bounding_box"` (and dumps with indent 6, not 4): on words `["a"]` and one
box, its record's third field is `"bounding_box"`, so the claimed schema does
not hold for it. -/
theorem export_json_field_names_counterexample :
    export_jsonOutput ["a"] [⟨0, 0, 1, 1⟩]
        = some ([[("key", JVal.num 0), ("text", JVal.str "a"),
            ("bounding_box", JVal.numArr [0, 0, 1, 1])]], 6)
      ∧ "bounding_box" ≠ "bbox" ∧ (6 : ℕ) ≠ 4 := by
  refine ⟨?_, by decide, by decide⟩
  rfl

/-- C3 (amended): `exportJson` in src/main.py satisfies the claim — for equal
length inputs it dumps, with indent 4, an array whose element `i` is exactly
`{"key": i, "text": words[i], "bbox": [x1, y1, x2, y2] of bboxes[i]}`, fields
in that order, array order equal to input index order.  (`export_json` in
src/layout.py instead names the box field `"bounding_box"` and uses
indent 6.) -/
theorem exportJson_schema (words : List String) (bboxes : List Box)
    (h : words.length = bboxes.length) :
    ∃ recs, exportJsonOutput words bboxes = some (recs, 4)
      ∧ recs.length = bboxes.length
      ∧ ∀ (i : ℕ) (w : String) (b : Box),
          words.get? i = some w → bboxes.get? i = some b →
          recs.get? i = some [("key", JVal.num ((i : ℕ) : ℚ)),
            ("text", JVal.str w), ("bbox", JVal.numArr b.toList)] := by
  have hs : (exportJsonLoop words 0 bboxes).isSome = true :=
    (exportJsonLoop_isSome words bboxes 0).mpr (Or.inr (by omega))
  obtain ⟨recs, hr⟩ := Option.isSome_iff_exists.mp hs
  obtain ⟨hlen, hget⟩ := exportJsonLoop_get words bboxes 0 recs hr
  refine ⟨recs, ?_, hlen, ?_⟩
  · rw [exportJsonOutput, exportJsonRecords, hr]; rfl
  · intro i w b hw hb
    have hres := hget i w b (by simpa using hw) hb
    simpa using hres

theorem exportJson_schema_witness :
    ∃ recs, exportJsonOutput ["Invoice"] [⟨0, 0, 200, 50⟩] = some (recs, 4)
      ∧ recs.length = [(⟨0, 0, 200, 50⟩ : Box)].length
      ∧ ∀ (i : ℕ) (w : String) (b : Box),
          (["Invoice"] : List String).get? i = some w →
          ([⟨0, 0, 200, 50⟩] : List Box).get? i = some b →
          recs.get? i = some [("key", JVal.num ((i : ℕ) : ℚ)),
            ("text", JVal.str w), ("bbox", JVal.numArr b.toList)] :=
  exportJson_schema ["Invoice"] [⟨0, 0, 200, 50⟩] rfl

/-- C9: the record loop of `exportJson` reads `words[i]` for every index `i`
of the box list, so it succeeds exactly when `len(words) >= len(bboxes)`; in
particular, under the equal-length invariant the `IndexError` is
unreachable. -/
theorem exportJson_index_precondition (words : List String) (bboxes : List Box) :
    ((exportJsonRecords words bboxes).isSome = true
        ↔ bboxes.length ≤ words.length)
      ∧ (words.length = bboxes.length →
          (exportJsonRecords words bboxes).isSome = true) := by
  have h := exportJsonLoop_isSome words bboxes 0
  rw [Nat.zero_add] at h
  have hiff : (exportJsonRecords words bboxes).isSome = true
      ↔ bboxes.length ≤ words.length := by
    rw [exportJsonRecords, h]
    constructor
    · rintro (rfl | hle)
      · simp
      · exact hle
    · intro hle
      exact Or.inr hle
  exact ⟨hiff, fun heq => hiff.mpr (le_of_eq heq.symm)⟩

theorem exportJson_index_precondition_witness :
    (exportJsonRecords ["a"] [⟨0, 0, 1, 1⟩]).isSome = true :=
  (exportJson_index_precondition ["a"] [⟨0, 0, 1, 1⟩]).2 rfl

/-- Output path of a written file: parent directory and file name. -/
structure OutPath where
  dir : String
  file : String
deriving DecidableEq, Repr

/-- The exceptions `exportJson` can raise: `IndexError` from `words[i]`,
`FileNotFoundError` from `open(..., "w")` on a missing parent directory. -/
inductive PyErr where
  | indexError
  | fileNotFound
deriving DecidableEq, Repr

/-- A filesystem: the set of existing directories and the files written so
far (each file holds a dumped JSON array and the indent it was dumped
with). -/
structure FS where
  dirs : List String
  files : List (OutPath × (List JObj × ℕ))
deriving DecidableEq, Repr

/-- Embedding of `exportJson(words, bboxes, output_file)` from src/main.py lines 130-140
including its file effect: first build `result` (an `IndexError` there aborts
before any file is touched), then `open(output_file, mode="w")` — modelling
the Python builtin, which raises `FileNotFoundError` when the parent
directory does not exist and never creates directories — then
`json.dump(result, f, indent=4)`. -/
def exportJson (fs : FS) (words : List String) (bboxes : List Box)
    (out : OutPath) : FS × Except PyErr Unit :=
  match exportJsonRecords words bboxes with
  | none => (fs, Except.error PyErr.indexError)
  | some recs =>
      if out.dir ∈ fs.dirs then
        ({ fs with files := (out, (recs, 4)) :: fs.files }, Except.ok ())
      else (fs, Except.error PyErr.fileNotFound)

/-- C7: when the output path's parent directory does not exist, `exportJson`
propagates the I/O error (`FileNotFoundError` from `open`), leaves the
filesystem unchanged, and — on any input whatsoever — never creates a
directory. -/
theorem exportJson_missing_dir_fails (fs : FS) (words : List String)
    (bboxes : List Box) (out : OutPath)
    (hlen : words.length = bboxes.length) (hdir : out.dir ∉ fs.dirs) :
    (exportJson fs words bboxes out).2 = Except.error PyErr.fileNotFound
      ∧ (exportJson fs words bboxes out).1 = fs
      ∧ ∀ (fs2 : FS) (ws2 : List String) (bs2 : List Box) (o2 : OutPath),
          ((exportJson fs2 ws2 bs2 o2).1).dirs = fs2.dirs := by
  have hsome : (exportJsonRecords words bboxes).isSome = true := by
    rw [exportJsonRecords, exportJsonLoop_isSome words bboxes 0]
    exact Or.inr (by omega)
  obtain ⟨recs, hr⟩ := Option.isSome_iff_exists.mp hsome
  refine ⟨?_, ?_, ?_⟩
  · rw [exportJson, hr]
    simp [if_neg hdir]
  · rw [exportJson, hr]
    simp [if_neg hdir]
  · intro fs2 ws2 bs2 o2
    rw [exportJson]
    cases exportJsonRecords ws2 bs2 with
    | none => rfl
    | some recs2 =>
        by_cases hmem : o2.dir ∈ fs2.dirs
        · simp [if_pos hmem]
        · simp [if_neg hmem]

theorem exportJson_missing_dir_fails_witness :
    (exportJson { dirs := ["outputs"], files := [] } ["a"] [⟨0, 0, 1, 1⟩]
      { dir := "missing", file := "extracted_text.json" }).2
        = Except.error PyErr.fileNotFound :=
  (exportJson_missing_dir_fails { dirs := ["outputs"], files := [] }
    ["a"] [⟨0, 0, 1, 1⟩] { dir := "missing", file := "extracted_text.json" }
    rfl (by decide)).1

/-!
## `main`'s per-document extraction loop (src/main.py lines 161-191)

For each document, `main` iterates over the page files listed under
`pdf2img/{documentBaseName}` (a page whose `checkPath` exist flag is false is
skipped), and for each existing page image runs the feature extractor,
`rescaleBBoxes`, `showBoxes`, `displayText` and `exportJson`, writing the
results to the three fixed file names `bboxes_on_raw.png`,
`extracted_text.png`, `extracted_text.json` in the document's output
directory.  Because the names are fixed per document, each processed page
overwrites the previous page's artifacts.
-/

/-- Embedding of `showBoxes(img, bboxes)` from src/main.py lines 88-99: draws each box as
an unfilled red rectangle onto the image buffer in place (the function
returns `None`); the annotated image is the post-state of `img`, modelled as
the image together with the drawn rectangles. -/
structure AnnotatedImage where
  image : PageImage
  rectangles : List Box
deriving DecidableEq, Repr

def showBoxes (img : PageImage) (bboxes : List Box) : AnnotatedImage :=
  { image := img, rectangles := bboxes }

/-- Contents of the three fixed-name files written for one page by the body
of `main`'s inner loop (src/main.py lines 186, 189, 191). -/
structure PageOutputs where
  bboxesOnRaw : AnnotatedImage
  extractedText : TextImage
  extractedJson : Option (List JObj × ℕ)
deriving DecidableEq, Repr

/-- Body of `main`'s inner loop for one existing page image (src/main.py
lines 177-191).  `extract` models the LayoutLMv3 feature extractor applied to
one image, returning `encoding['words'][0]` and `encoding['boxes'][0]`: for a
single-image call the batch has exactly one entry, which line 183's
`page = 0` selects. -/
def pageArtifacts (lenW : String → ℕ → ℚ) (fuel : ℕ)
    (extract : PageImage → List String × List Box) (image : PageImage) :
    PageOutputs :=
  let words := (extract image).1
  let bboxes := (rescaleBBoxes image.width image.height (extract image).2).returned
  { bboxesOnRaw := showBoxes image bboxes
    extractedText :=
      displayText lenW fuel (image.width, image.height) bboxes words true
    extractedJson := exportJsonOutput words bboxes }

/-- One iteration of `main`'s page loop: a non-existing page is skipped
(src/main.py line 176); an existing one has its artifacts computed and
written over the document's fixed file names, and the extractor invocation is
recorded. -/
def mainPageStep (lenW : String → ℕ → ℚ) (fuel : ℕ)
    (extract : PageImage → List String × List Box)
    (acc : Option PageOutputs × List PageImage) (page : Option PageImage) :
    Option PageOutputs × List PageImage :=
  match page with
  | none => acc
  | some img => (some (pageArtifacts lenW fuel extract img), acc.2 ++ [img])

/-- Embedding of `main`'s per-document extraction loop (src/main.py lines 174-191): fold
over the listed pages.  First component: the final content of the three
fixed-name artifacts (`none` when no page was processed); second: the pages
run through extraction, in order. -/
def mainDocLoop (lenW : String → ℕ → ℚ) (fuel : ℕ)
    (extract : PageImage → List String × List Box)
    (pages : List (Option PageImage)) : Option PageOutputs × List PageImage :=
  pages.foldl (mainPageStep lenW fuel extract) (none, [])

/-- The last-written artifact wins: folding from any accumulator yields the
artifacts of the last existing page (falling back to the accumulator), and
appends every existing page to the trace. -/
theorem mainDocLoop_foldl (lenW : String → ℕ → ℚ) (fuel : ℕ)
    (extract : PageImage → List String × List Box) :
    ∀ (pages : List (Option PageImage))
      (acc : Option PageOutputs × List PageImage),
      pages.foldl (mainPageStep lenW fuel extract) acc
        = (((pages.filterMap id).getLast?.map
              (pageArtifacts lenW fuel extract)).or acc.1,
            acc.2 ++ pages.filterMap id) := by
  intro pages
  induction pages with
  | nil => intro acc; simp
  | cons p rest ih =>
      intro acc
      cases p with
      | none =>
          rw [List.foldl_cons]
          rw [show mainPageStep lenW fuel extract acc none = acc from rfl]
          rw [ih acc]
          simp
      | some img =>
          rw [List.foldl_cons]
          rw [show mainPageStep lenW fuel extract acc (some img)
            = (some (pageArtifacts lenW fuel extract img), acc.2 ++ [img]) from rfl]
          rw [ih]
          simp only [List.filterMap_cons, id_eq, List.getLast?_cons]
          cases hl : (rest.filterMap id).getLast? with
          | none => simp [List.getLastD_eq_getLast?, hl]
          | some x => simp [List.getLastD_eq_getLast?, hl]

/-- C2 (amended): every page image found by `main`'s per-document loop is run
through extraction, rescale, render and export — not just the first — and,
because the three artifact file names are fixed per document, each page's
outputs overwrite the previous page's: the final artifacts are those of the
*last* existing page in listing order (and `none` when no page exists). -/
theorem main_processes_every_page_last_wins (lenW : String → ℕ → ℚ) (fuel : ℕ)
    (extract : PageImage → List String × List Box)
    (pages : List (Option PageImage)) :
    (mainDocLoop lenW fuel extract pages).2 = pages.filterMap id
      ∧ (mainDocLoop lenW fuel extract pages).1
          = ((pages.filterMap id).getLast?).map
              (pageArtifacts lenW fuel extract) := by
  rw [mainDocLoop, mainDocLoop_foldl]
  constructor
  · simp
  · cases ((pages.filterMap id).getLast?).map (pageArtifacts lenW fuel extract) with
    | none => rfl
    | some x => rfl

/-- Width function, extractor and two distinct pages used to exercise
`main`'s loop on a two-page document: the extractor reports one word with the
normalized box `[0, 0, 10, 10]`. -/
def lenEx : String → ℕ → ℚ := fun _ s => (s : ℚ)

def extractEx : PageImage → List String × List Box :=
  fun _ => (["t"], [⟨0, 0, 10, 10⟩])

def pgEx1 : PageImage := { width := 100, height := 100, pixels := 1 }

def pgEx2 : PageImage := { width := 200, height := 100, pixels := 2 }

/-- C2: as stated, later pages of a multi-page document would contribute
nothing — the final artifacts would equal those of the first page alone, and
only the first page would be extracted.  On a two-page document both pages
are processed: the final artifacts differ from the first-page-only run (the
second page's overwrite them) and the extraction trace contains both pages,
not just the first. -/
theorem main_first_page_only_counterexample :
    (mainDocLoop lenEx 5 extractEx [some pgEx1, some pgEx2]).1
        ≠ (mainDocLoop lenEx 5 extractEx [some pgEx1]).1
      ∧ (mainDocLoop lenEx 5 extractEx [some pgEx1, some pgEx2]).2 ≠ [pgEx1] := by
  constructor
  · intro h
    have h2 : (mainDocLoop lenEx 5 extractEx [some pgEx1, some pgEx2]).1
        = some (pageArtifacts lenEx 5 extractEx pgEx2) := rfl
    have h1 : (mainDocLoop lenEx 5 extractEx [some pgEx1]).1
        = some (pageArtifacts lenEx 5 extractEx pgEx1) := rfl
    rw [h2, h1] at h
    have hpix : (2 : ℕ) = 1 :=
      congrArg (fun o => ((o.getD (pageArtifacts lenEx 5 extractEx
        pgEx2)).bboxesOnRaw).image.pixels) h
    exact absurd hpix (by decide)
  · intro h
    have hlen := congrArg List.length h
    exact absurd hlen (by decide)
